import Mathlib

/-!
# Verification of the image-asset service (key derivation and asset coordinator)

A shallow embedding of the repository's core logic:

* `s3_client.py` — `sanitize_image_name`, `normalize_extension`, `generate_s3_key`
* `routers/images.py` — `upload`, `download_by_name`, `get_metadata`,
  `get_random_metadata`, `delete_by_name`
* `db.py` — the `Image` record (unique `name`, autoincrement `id`).

Python strings are modelled as lists of Unicode codepoints (`List Nat`); the
string operations the code uses (`strip`, `lower`, `lstrip`, character
membership, `pathlib` stem/suffix) are defined on those lists.  External
collaborators (the S3 object store, the relational record store) are modelled
as explicit state: an association list of blobs and a list of records with an
autoincrement counter.  Collaborator failures (S3 write/delete failing) are
modelled by a boolean parameter; the randomness of `random.randrange` is
modelled by a natural-number offset parameter.
-/

namespace ImageService

/-- Codepoints of a string literal, the model of a Python `str`. -/
def pyStr (s : String) : List Nat := s.toList.map Char.toNat

/-- ASCII whitespace, the characters removed by Python `str.strip()`
(for the ASCII range). -/
def isPySpace (c : Nat) : Bool := c = 32 || c = 9 || c = 10 || c = 13 || c = 11 || c = 12

/-- Python `str.strip()`: drop whitespace from both ends. -/
def pyStrip (s : List Nat) : List Nat :=
  ((s.dropWhile isPySpace).reverse.dropWhile isPySpace).reverse

/-- Python `str.lower()` on the ASCII range: map `A`–`Z` to `a`–`z`. -/
def pyLower (s : List Nat) : List Nat :=
  s.map fun c => if 65 ≤ c ∧ c ≤ 90 then c + 32 else c

/-- Python `str.lstrip(".")`: drop every leading `.` (codepoint 46). -/
def pyLstripDot (s : List Nat) : List Nat := s.dropWhile (fun c => c == 46)

/-- The typed failures of the service (§7 of the spec), as surfaced by
`s3_client.py` ValueErrors and the `HTTPException`s of `routers/images.py`. -/
inductive Err where
  | invalidName
  | invalidExtension
  | nameRequired
  | emptyPayload
  | nameConflict
  | notFound
  | storageWriteFailed
  | storageReadFailed
  | storageDeleteFailed
  deriving DecidableEq, Repr

/-- The allowed-character string of `sanitize_image_name` in `s3_client.py`:
`"abcdefghijklmnopqrstuvwxyzABCDEFGHIJKLMNOPQRSTUVWXYZ0123456789-_"`. -/
def allowedChars : List Nat :=
  pyStr "abcdefghijklmnopqrstuvwxyzABCDEFGHIJKLMNOPQRSTUVWXYZ0123456789-_"

/-- Function `sanitize_image_name` from `s3_client.py`: strip; error if empty; keep only
characters of `allowedChars`; error if nothing remains. -/
def sanitize_image_name (name : List Nat) : Except Err (List Nat) :=
  let name := pyStrip name
  if name = [] then .error .invalidName
  else
    let cleaned := name.filter (fun ch => allowedChars.contains ch)
    if cleaned = [] then .error .invalidName
    else .ok cleaned

/-- Function `normalize_extension` from `s3_client.py`: `ext.strip().lower().lstrip(".")`,
error if the result is empty. -/
def normalize_extension (ext : List Nat) : Except Err (List Nat) :=
  let ext := pyLstripDot (pyLower (pyStrip ext))
  if ext = [] then .error .invalidExtension
  else .ok ext

/-- Function `generate_s3_key` from `s3_client.py`:
`f"images/{sanitize_image_name(name)}.{normalize_extension(extension)}"`. -/
def generate_s3_key (name extension : List Nat) : Except Err (List Nat) := do
  let n ← sanitize_image_name name
  let e ← normalize_extension extension
  return pyStr "images/" ++ n ++ [46] ++ e

/-- Modelled from the spec (§4.1): a character of the class `[A-Za-z0-9_-]`. -/
def specAllowed (c : Nat) : Bool :=
  (65 ≤ c && c ≤ 90) || (97 ≤ c && c ≤ 122) || (48 ≤ c && c ≤ 57) || c == 95 || c == 45

/-- Modelled from the spec (§4.1): sanitize the display name — trim whitespace,
fail with `InvalidName` if empty after trim, retain only `[A-Za-z0-9_-]`,
fail with `InvalidName` if nothing remains. -/
def sanitize_display_name_spec (name : List Nat) : Except Err (List Nat) :=
  let name := pyStrip name
  if name = [] then .error .invalidName
  else
    let kept := name.filter specAllowed
    if kept = [] then .error .invalidName
    else .ok kept

/-- Modelled from the spec (§4.1), word for word: normalize the extension —
trim, lowercase, strip a SINGLE leading dot, fail with `InvalidExtension`
if the result is empty. -/
def normalize_extension_spec (ext : List Nat) : Except Err (List Nat) :=
  let ext := pyLower (pyStrip ext)
  let ext := match ext with
    | c :: rest => if c = 46 then rest else c :: rest
    | [] => []
  if ext = [] then .error .invalidExtension
  else .ok ext

/-- Modelled from the spec (§4.1): `derive_key` as the spec literally states it
(single leading dot stripped from the extension). -/
def derive_key_spec (name extension : List Nat) : Except Err (List Nat) := do
  let n ← sanitize_display_name_spec name
  let e ← normalize_extension_spec extension
  return pyStr "images/" ++ n ++ [46] ++ e

/-- The spec's extension normalization amended to strip ALL leading dots,
which is what `str.lstrip(".")` does. -/
def normalize_extension_spec_amended (ext : List Nat) : Except Err (List Nat) :=
  let ext := (pyLower (pyStrip ext)).dropWhile (fun c => c == 46)
  if ext = [] then .error .invalidExtension
  else .ok ext

/-- Reference `derive_key` per the spec, amended only in the leading-dot treatment. -/
def derive_key_spec_amended (name extension : List Nat) : Except Err (List Nat) := do
  let n ← sanitize_display_name_spec name
  let e ← normalize_extension_spec_amended extension
  return pyStr "images/" ++ n ++ [46] ++ e

/-- The allowed-character string of the code is exactly the character class
`[A-Za-z0-9_-]` of the spec. -/
theorem allowedChars_contains_eq (c : Nat) :
    allowedChars.contains c = specAllowed c := by
  by_cases h : c < 123
  · interval_cases c <;> decide
  · have hs : specAllowed c = false := by
      simp only [specAllowed, Bool.or_eq_false_iff, Bool.and_eq_false_iff,
        decide_eq_false_iff_not, not_le, beq_eq_false_iff_ne, ne_eq]
      omega
    have ha : allowedChars.contains c = false := by
      have hall : ∀ m ∈ allowedChars, m < 123 := by decide
      by_contra hc
      rw [Bool.not_eq_false, List.contains_iff_exists_mem_beq] at hc
      obtain ⟨m, hm, hb⟩ := hc
      rw [beq_iff_eq] at hb
      exact h (hb ▸ hall m hm)
    rw [hs, ha]

theorem sanitize_eq_spec (name : List Nat) :
    sanitize_image_name name = sanitize_display_name_spec name := by
  unfold sanitize_image_name sanitize_display_name_spec
  have : (pyStrip name).filter (fun ch => allowedChars.contains ch)
      = (pyStrip name).filter specAllowed := by
    apply List.filter_congr
    intro c _
    exact allowedChars_contains_eq c

  simp only [this]

theorem generate_eq_spec_amended (name extension : List Nat) :
    generate_s3_key name extension = derive_key_spec_amended name extension := by
  unfold generate_s3_key derive_key_spec_amended
  rw [sanitize_eq_spec]
  have : normalize_extension extension = normalize_extension_spec_amended extension := by
    unfold normalize_extension normalize_extension_spec_amended pyLstripDot
    rfl
  rw [this]

example : generate_s3_key (pyStr "cat") (pyStr "..png") = .ok (pyStr "images/cat.png") := by rfl

example : derive_key_spec (pyStr "cat") (pyStr "..png") = .ok (pyStr "images/cat..png") := by rfl

/-- A row of the `images` table (`db.py`, class `Image`): autoincrement `id`,
unique `name`, `size_bytes`, `extension`, `s3_key`, server-assigned
`last_updated_at` (modelled as a Nat clock value). -/
structure ImageRec where
  id : Nat
  name : List Nat
  size_bytes : Nat
  extension : List Nat
  s3_key : List Nat
  last_updated : Nat
  deriving DecidableEq, Repr

/-- The relational record store: rows plus the autoincrement counter. -/
structure DBState where
  images : List ImageRec
  next_id : Nat
  deriving DecidableEq, Repr

/-- The whole system state: record store plus object store (key ↦ bytes). -/
structure SysState where
  db : DBState
  blobs : List (List Nat × List Nat)
  deriving DecidableEq, Repr

/-- The `ImageMetadata` response model of `routers/images.py`. -/
structure ImageMetadata where
  last_updated_at : Nat
  name : List Nat
  size_bytes : Nat
  extension : List Nat
  deriving DecidableEq, Repr

def metaOf (r : ImageRec) : ImageMetadata :=
  ⟨r.last_updated, r.name, r.size_bytes, r.extension⟩

/-- From `pathlib`: the final path component (text after the last `/`, trailing
slashes dropped). -/
def pathBaseName (filename : List Nat) : List Nat :=
  let noSlash := (filename.reverse.dropWhile (fun c => c == 47)).reverse
  (noSlash.reverse.takeWhile (fun c => !(c == 47))).reverse

/-- From `pathlib`: split a component at its last dot, provided that dot is neither
the first nor the last character (`0 < i < len - 1`); `some (stem, suffix)`
with the dot kept on the suffix, else `none`. -/
def pathSplitExt (name : List Nat) : Option (List Nat × List Nat) :=
  let after := (name.reverse.takeWhile (fun c => !(c == 46))).reverse
  if name.contains 46 ∧ 0 < name.length - after.length - 1 ∧ 0 < after.length then
    some (name.take (name.length - after.length - 1), 46 :: after)
  else none

/-- Python `Path(filename).suffix` (empty modelled as `[]`). -/
def path_suffix (filename : List Nat) : List Nat :=
  match pathSplitExt (pathBaseName filename) with
  | some (_, suf) => suf
  | none => []

/-- Python `Path(filename).stem`. -/
def path_stem (filename : List Nat) : List Nat :=
  let n := pathBaseName filename
  match pathSplitExt n with
  | some (st, _) => st
  | none => n

/-- Python truthiness fallback `a or b` for an optional string `a`:
`None` and `""` both fall through to `b`. -/
def pyOrElse (a : Option (List Nat)) (b : List Nat) : List Nat :=
  match a with
  | some n => if n = [] then b else n
  | none => b

/-- S3 `upload_fileobj`: overwrite-by-key put into the blob store. -/
def put_blob (blobs : List (List Nat × List Nat)) (key data : List Nat) :
    List (List Nat × List Nat) :=
  (key, data) :: blobs.filter (fun kv => !(kv.1 == key))

/-- S3 `get_object`: fetch by key, `none` when the key is absent. -/
def lookup_blob (blobs : List (List Nat × List Nat)) (key : List Nat) :
    Option (List Nat) :=
  (blobs.find? (fun kv => kv.1 == key)).map Prod.snd

/-- S3 `delete_object`: remove a key (idempotent). -/
def remove_blob (blobs : List (List Nat × List Nat)) (key : List Nat) :
    List (List Nat × List Nat) :=
  blobs.filter (fun kv => !(kv.1 == key))

/-- Lookup `select(Image).where(Image.name == name)` + `scalar_one_or_none`. -/
def find_by_name (images : List ImageRec) (name : List Nat) : Option ImageRec :=
  images.find? (fun r => r.name == name)

/-- The record phase of `upload` (`routers/images.py` lines 141–164): look up
by name at select time (`sel`); if found, overwrite `size_bytes`, `extension`
and `s3_key` in place; otherwise insert a new row, which the unique constraint
on `name` checks against the commit-time table (`com`) — a violation raises
`IntegrityError`, mapped to 409 after `db.rollback()`.  Sequential callers
pass the same list for `sel` and `com`; a racing insert is modelled by a `com`
that already holds the name. -/
def upsert_record (sel com : List ImageRec) (next_id : Nat)
    (final_name extension key : List Nat) (size now : Nat) :
    (List ImageRec × Nat) × Except Err ImageRec :=
  match find_by_name sel final_name with
  | some existing =>
      let updated : ImageRec :=
        { id := existing.id, name := existing.name, size_bytes := size,
          extension := extension, s3_key := key, last_updated := now }
      ((com.map fun r => if r.id = existing.id then updated else r, next_id), .ok updated)
  | none =>
      let inserted : ImageRec := ⟨next_id, final_name, size, extension, key, now⟩
      if com.any (fun r => r.name == final_name) then
        ((com, next_id), .error .nameConflict)
      else
        ((com ++ [inserted], next_id + 1), .ok inserted)

/-- Handler `upload` from `routers/images.py`: extension from the filename suffix, name
from the form field with filename-stem fallback, key derivation, empty-payload
check, S3 write (success/failure given by `s3ok`), then the record upsert.
Every failure path leaves the state it did not yet touch unchanged. -/
def upload (st : SysState) (filename : List Nat) (nameOpt : Option (List Nat))
    (data : List Nat) (s3ok : Bool) (now : Nat) :
    SysState × Except Err ImageMetadata :=
  match normalize_extension (path_suffix filename) with
  | .error e => (st, .error e)
  | .ok extension =>
    let final_name := pyStrip (pyOrElse nameOpt (path_stem filename))
    if final_name = [] then (st, .error .nameRequired)
    else
      match generate_s3_key final_name extension with
      | .error e => (st, .error e)
      | .ok key =>
        if data.length = 0 then (st, .error .emptyPayload)
        else if s3ok then
          let blobs := put_blob st.blobs key data
          match upsert_record st.db.images st.db.images st.db.next_id
              final_name extension key data.length now with
          | ((images, nid), .error e) => (⟨⟨images, nid⟩, blobs⟩, .error e)
          | ((images, nid), .ok r) => (⟨⟨images, nid⟩, blobs⟩, .ok (metaOf r))
        else (st, .error .storageWriteFailed)

/-- Handler `get_metadata` from `routers/images.py`. -/
def get_metadata (st : SysState) (name : List Nat) : Except Err ImageMetadata :=
  match find_by_name st.db.images name with
  | none => .error .notFound
  | some r => .ok (metaOf r)

/-- Handler `download_by_name` from `routers/images.py`: record lookup then blob fetch
(a missing blob surfaces as a 502, `storageReadFailed`).  The response body is
the blob's bytes. -/
def download_by_name (st : SysState) (name : List Nat) : Except Err (List Nat) :=
  match find_by_name st.db.images name with
  | none => .error .notFound
  | some r =>
    match lookup_blob st.blobs r.s3_key with
    | none => .error .storageReadFailed
    | some data => .ok data

/-- The `ORDER BY id` ordering of `get_random_metadata`. -/
def order_by_id (l : List ImageRec) : List ImageRec :=
  l.mergeSort (fun a b => a.id ≤ b.id)

/-- Handler `get_random_metadata` from `routers/images.py`: count; 404 on an empty
table; otherwise the row at offset `off` under `ORDER BY id`, where `off`
models the value of `random.randrange(total)` (hence `off < total`). -/
def get_random_metadata (st : SysState) (off : Nat) : Except Err ImageMetadata :=
  if st.db.images.length = 0 then .error .notFound
  else
    match (order_by_id st.db.images).get? off with
    | some r => .ok (metaOf r)
    | none => .error .notFound

/-- Handler `delete_by_name` from `routers/images.py`: record lookup, S3 delete first
(`s3ok` models its outcome; on failure the handler raises 502 before touching
the record store), then row deletion. -/
def delete_by_name (st : SysState) (name : List Nat) (s3ok : Bool) :
    SysState × Except Err (List Nat) :=
  match find_by_name st.db.images name with
  | none => (st, .error .notFound)
  | some r =>
    if s3ok then
      (⟨⟨st.db.images.filter (fun r2 => !(r2.id == r.id)), st.db.next_id⟩,
        remove_blob st.blobs r.s3_key⟩, .ok name)
    else (st, .error .storageDeleteFailed)

/-- The empty initial state: no rows, autoincrement at 1, no blobs. -/
def initState : SysState := ⟨⟨[], 1⟩, []⟩

/-- States reachable from the empty store by any sequence of uploads and
deletes (reads do not change state). -/
inductive Reach : SysState → Prop where
  | init : Reach initState
  | upload (st st' : SysState) (filename : List Nat) (nameOpt : Option (List Nat))
      (data : List Nat) (s3ok : Bool) (now : Nat) (res : Except Err ImageMetadata) :
      Reach st → upload st filename nameOpt data s3ok now = (st', res) → Reach st'
  | delete (st st' : SysState) (name : List Nat) (s3ok : Bool)
      (res : Except Err (List Nat)) :
      Reach st → delete_by_name st name s3ok = (st', res) → Reach st'

instance {ε α : Type} [DecidableEq ε] [DecidableEq α] : DecidableEq (Except ε α) :=
  fun x y =>
  match x, y with
  | .ok a, .ok b =>
      if h : a = b then .isTrue (by rw [h]) else .isFalse (by simp [h])
  | .error a, .error b =>
      if h : a = b then .isTrue (by rw [h]) else .isFalse (by simp [h])
  | .ok _, .error _ => .isFalse (by simp)
  | .error _, .ok _ => .isFalse (by simp)

/-- Every stored row's `s3_key` is the key `generate_s3_key` derives from the
row's own `name` and `extension` (§3: `storage_key` of the form
`images/<sanitized-name>.<extension>`). -/
def KeyInvL (l : List ImageRec) : Prop :=
  ∀ r ∈ l, generate_s3_key r.name r.extension = .ok r.s3_key

/-- The record-store invariant: key shape, unique names (the `unique=True`
constraint of `db.py`), unique ids, and ids below the autoincrement counter. -/
def InvL (l : List ImageRec) (n : Nat) : Prop :=
  KeyInvL l ∧ (l.map ImageRec.name).Nodup ∧ (l.map ImageRec.id).Nodup ∧
    ∀ r ∈ l, r.id < n

def Inv (st : SysState) : Prop := InvL st.db.images st.db.next_id

theorem find_by_name_prop {l : List ImageRec} {name : List Nat} {r : ImageRec}
    (h : find_by_name l name = some r) : r ∈ l ∧ r.name = name := by
  refine ⟨List.mem_of_find?_eq_some h, ?_⟩
  have := List.find?_some h
  rwa [beq_iff_eq] at this

theorem find_by_name_none {l : List ImageRec} {name : List Nat}
    (h : find_by_name l name = none) : ∀ r ∈ l, r.name ≠ name := by
  intro r hr
  have := List.find?_eq_none.mp h r hr
  simpa using this

/-- With unique names, lookup by a stored row's name finds that row. -/
theorem find_by_name_of_mem {l : List ImageRec} {r : ImageRec}
    (hnodup : (l.map ImageRec.name).Nodup) (hr : r ∈ l) :
    find_by_name l r.name = some r := by
  induction l with
  | nil => cases hr
  | cons a t ih =>
      rw [List.map_cons, List.nodup_cons] at hnodup
      rcases List.mem_cons.mp hr with rfl | hrt
      · simp [find_by_name]
      · have hne : a.name ≠ r.name := by
          intro he
          exact hnodup.1 (he ▸ List.mem_map_of_mem ImageRec.name hrt)
        simp only [find_by_name, List.find?_cons]
        rw [show (a.name == r.name) = false from beq_eq_false_iff_ne.mpr hne]
        exact ih hnodup.2 hrt

/-- With unique names, the rows named like a stored row are exactly that row. -/
theorem filter_name_of_mem {l : List ImageRec} {r : ImageRec}
    (hnodup : (l.map ImageRec.name).Nodup) (hr : r ∈ l) :
    l.filter (fun x => x.name == r.name) = [r] := by
  induction l with
  | nil => cases hr
  | cons a t ih =>
      rw [List.map_cons, List.nodup_cons] at hnodup
      rcases List.mem_cons.mp hr with rfl | hrt
      · have : t.filter (fun x => x.name == r.name) = [] := by
          rw [List.filter_eq_nil_iff]
          intro x hx hb
          rw [beq_iff_eq] at hb
          exact hnodup.1 (hb ▸ List.mem_map_of_mem ImageRec.name hx)
        simp [List.filter_cons, this]
      · have hne : a.name ≠ r.name := by
          intro he
          exact hnodup.1 (he ▸ List.mem_map_of_mem ImageRec.name hrt)
        rw [List.filter_cons, show (a.name == r.name) = false from beq_eq_false_iff_ne.mpr hne]
        exact ih hnodup.2 hrt

/-- Reading back a key just written returns the bytes just written. -/
theorem lookup_put (blobs : List (List Nat × List Nat)) (key data : List Nat) :
    lookup_blob (put_blob blobs key data) key = some data := by
  simp [lookup_blob, put_blob, List.find?_cons]

theorem upsert_inv {images : List ImageRec} {next_id : Nat}
    {fn ext key : List Nat} {size now : Nat}
    {images' : List ImageRec} {nid : Nat} {res : Except Err ImageRec}
    (hkey : generate_s3_key fn ext = .ok key)
    (hInv : InvL images next_id)
    (h : upsert_record images images next_id fn ext key size now = ((images', nid), res)) :
    InvL images' nid := by
  obtain ⟨hK, hN, hI, hB⟩ := hInv
  unfold upsert_record at h
  cases hfind : find_by_name images fn with
  | some existing =>
      rw [hfind] at h
      obtain ⟨hmem, hname⟩ := find_by_name_prop hfind
      obtain ⟨he1, he2⟩ := Prod.mk.injEq .. ▸ h
      obtain ⟨him, hnid⟩ := Prod.mk.injEq .. ▸ he1
      subst hnid
      set updated : ImageRec :=
        { id := existing.id, name := existing.name, size_bytes := size,
          extension := ext, s3_key := key, last_updated := now } with hupd
      have hidinj : ∀ x ∈ images, ∀ y ∈ images, x.id = y.id → x = y :=
        fun x hx y hy hxy => List.inj_on_of_nodup_map hI hx hy hxy
      have hf : ∀ r ∈ images,
          (if r.id = existing.id then updated else r).name = r.name := by
        intro r hr
        by_cases hc : r.id = existing.id
        · have : r = existing := hidinj r hr existing hmem hc
          simp [hc, hupd, this]
        · simp [hc]
      have hg : ∀ r ∈ images,
          (if r.id = existing.id then updated else r).id = r.id := by
        intro r hr
        by_cases hc : r.id = existing.id
        · simp [hc, hupd]
        · simp [hc]
      subst him
      refine ⟨?_, ?_, ?_, ?_⟩
      · intro r' hr'
        obtain ⟨r, hr, hrr⟩ := List.mem_map.mp hr'
        by_cases hc : r.id = existing.id
        · rw [← hrr]
          simp only [hc, if_pos]
          simpa [hupd, hname] using hkey
        · rw [← hrr]
          simp only [hc, if_neg, not_false_iff]
          exact hK r hr
      · rw [List.map_map]
        have : images.map (ImageRec.name ∘ fun r => if r.id = existing.id then updated else r)
            = images.map ImageRec.name := List.map_congr_left hf
        rwa [this]
      · rw [List.map_map]
        have : images.map (ImageRec.id ∘ fun r => if r.id = existing.id then updated else r)
            = images.map ImageRec.id := List.map_congr_left hg
        rwa [this]
      · intro r' hr'
        obtain ⟨r, hr, hrr⟩ := List.mem_map.mp hr'
        have := hg r hr
        rw [hrr] at this
        rw [this]
        exact hB r hr
  | none =>
      rw [hfind] at h
      have hno : ∀ r ∈ images, r.name ≠ fn := find_by_name_none hfind
      have hany : images.any (fun r => r.name == fn) = false := by
        rw [List.any_eq_false]
        intro r hr
        simpa using hno r hr
      rw [hany] at h
      simp only [Bool.false_eq_true, if_false] at h
      obtain ⟨he1, he2⟩ := Prod.mk.injEq .. ▸ h
      obtain ⟨him, hnid⟩ := Prod.mk.injEq .. ▸ he1
      subst him hnid
      refine ⟨?_, ?_, ?_, ?_⟩
      · intro r hr
        rcases List.mem_append.mp hr with hr | hr
        · exact hK r hr
        · rw [List.mem_singleton.mp hr]
          exact hkey
      · rw [List.map_append, List.map_singleton]
        apply List.Nodup.append hN (List.nodup_singleton _)
        intro a ha hb
        rw [List.mem_singleton.mp hb] at ha
        obtain ⟨r, hr, hrn⟩ := List.mem_map.mp ha
        exact hno r hr hrn
      · rw [List.map_append, List.map_singleton]
        apply List.Nodup.append hI (List.nodup_singleton _)
        intro a ha hb
        rw [List.mem_singleton.mp hb] at ha
        obtain ⟨r, hr, hrn⟩ := List.mem_map.mp ha
        exact absurd (hrn ▸ hB r hr) (lt_irrefl _)
      · intro r hr
        rcases List.mem_append.mp hr with hr | hr
        · exact Nat.lt_succ_of_lt (hB r hr)
        · rw [List.mem_singleton.mp hr]
          exact Nat.lt_succ_self _

theorem upsert_ok {images : List ImageRec} {next_id : Nat}
    {fn ext key : List Nat} {size now : Nat}
    {images' : List ImageRec} {nid : Nat} {r : ImageRec}
    (h : upsert_record images images next_id fn ext key size now = ((images', nid), .ok r)) :
    r ∈ images' ∧ r.name = fn ∧ r.size_bytes = size ∧ r.extension = ext ∧
      r.s3_key = key ∧ r.last_updated = now ∧
      ∀ x ∈ images', x.name = fn ∨ x.name ∈ images.map ImageRec.name := by
  unfold upsert_record at h
  cases hfind : find_by_name images fn with
  | some existing =>
      rw [hfind] at h
      obtain ⟨hmem, hname⟩ := find_by_name_prop hfind
      obtain ⟨he1, he2⟩ := Prod.mk.injEq .. ▸ h
      obtain ⟨him, hnid⟩ := Prod.mk.injEq .. ▸ he1
      have hr := (Except.ok.inj he2).symm
      subst him
      refine ⟨?_, ?_, ?_, ?_, ?_, ?_, ?_⟩
      · refine List.mem_map.mpr ⟨existing, hmem, ?_⟩
        rw [if_pos rfl]
        exact hr.symm
      · rw [hr]; exact hname
      · rw [hr]
      · rw [hr]
      · rw [hr]
      · rw [hr]
      · intro x hx
        obtain ⟨y, hy, hxy⟩ := List.mem_map.mp hx
        by_cases hc : y.id = existing.id
        · left
          rw [← hxy]
          simp only [hc, if_pos]
          exact hname
        · right
          rw [← hxy]
          simp only [hc, if_neg, not_false_iff]
          exact List.mem_map_of_mem ImageRec.name hy
  | none =>
      rw [hfind] at h
      have hno : ∀ x ∈ images, x.name ≠ fn := find_by_name_none hfind
      have hany : images.any (fun x => x.name == fn) = false := by
        rw [List.any_eq_false]
        intro x hx
        simpa using hno x hx
      rw [hany] at h
      simp only [Bool.false_eq_true, if_false] at h
      obtain ⟨he1, he2⟩ := Prod.mk.injEq .. ▸ h
      obtain ⟨him, hnid⟩ := Prod.mk.injEq .. ▸ he1
      have hr := (Except.ok.inj he2).symm
      subst him
      refine ⟨?_, ?_, ?_, ?_, ?_, ?_, ?_⟩
      · exact List.mem_append.mpr (Or.inr (List.mem_singleton.mpr hr))
      · rw [hr]
      · rw [hr]
      · rw [hr]
      · rw [hr]
      · rw [hr]
      · intro x hx
        rcases List.mem_append.mp hx with hx | hx
        · exact Or.inr (List.mem_map_of_mem ImageRec.name hx)
        · left
          rw [List.mem_singleton.mp hx]

theorem upload_inv {st st' : SysState} {f : List Nat} {n : Option (List Nat)}
    {d : List Nat} {s3ok : Bool} {now : Nat} {res : Except Err ImageMetadata}
    (hInv : Inv st)
    (h : upload st f n d s3ok now = (st', res)) : Inv st' := by
  simp only [upload] at h
  split at h
  · obtain ⟨rfl, rfl⟩ := Prod.mk.injEq .. ▸ h
    exact hInv
  · split at h
    · obtain ⟨rfl, rfl⟩ := Prod.mk.injEq .. ▸ h
      exact hInv
    · split at h
      · obtain ⟨rfl, rfl⟩ := Prod.mk.injEq .. ▸ h
        exact hInv
      · rename_i extension hext hne key hkey
        split at h
        · obtain ⟨rfl, rfl⟩ := Prod.mk.injEq .. ▸ h
          exact hInv
        · split at h
          · split at h
            · rename_i heq
              obtain ⟨rfl, rfl⟩ := Prod.mk.injEq .. ▸ h
              exact upsert_inv hkey hInv heq
            · rename_i heq
              obtain ⟨rfl, rfl⟩ := Prod.mk.injEq .. ▸ h
              exact upsert_inv hkey hInv heq
          · obtain ⟨rfl, rfl⟩ := Prod.mk.injEq .. ▸ h
            exact hInv

theorem delete_inv {st st' : SysState} {name : List Nat} {s3ok : Bool}
    {res : Except Err (List Nat)}
    (hInv : Inv st)
    (h : delete_by_name st name s3ok = (st', res)) : Inv st' := by
  obtain ⟨hK, hN, hI, hB⟩ := hInv
  simp only [delete_by_name] at h
  split at h
  · obtain ⟨rfl, rfl⟩ := Prod.mk.injEq .. ▸ h
    exact ⟨hK, hN, hI, hB⟩
  · rename_i r hfind
    split at h
    · obtain ⟨rfl, rfl⟩ := Prod.mk.injEq .. ▸ h
      have hsub : (st.db.images.filter (fun r2 => !(r2.id == r.id))).Sublist
          st.db.images := List.filter_sublist _
      refine ⟨?_, ?_, ?_, ?_⟩
      · intro x hx
        exact hK x (hsub.mem hx)
      · exact (hsub.map ImageRec.name).nodup hN
      · exact (hsub.map ImageRec.id).nodup hI
      · intro x hx
        exact hB x (hsub.mem hx)
    · obtain ⟨rfl, rfl⟩ := Prod.mk.injEq .. ▸ h
      exact ⟨hK, hN, hI, hB⟩

/-- Every reachable state satisfies the record-store invariant. -/
theorem reach_inv {st : SysState} (h : Reach st) : Inv st := by
  induction h with
  | init =>
      refine ⟨?_, ?_, ?_, ?_⟩ <;> simp [initState, KeyInvL]
  | upload st st' f n d s3ok now res _ heq ih => exact upload_inv ih heq
  | delete st st' name s3ok res _ heq ih => exact delete_inv ih heq

/-- What a successful `upload` guarantees: the returned metadata carries the
final (stripped, unsanitized) name, the payload length and the clock; a row
with that name, size, extension and derived key is stored; the blob store
holds the payload under the derived key; and every stored name is either the
uploaded name or a previously stored name. -/
theorem upload_ok_state {st st' : SysState} {f : List Nat} {n : Option (List Nat)}
    {d : List Nat} {s3ok : Bool} {now : Nat} {m : ImageMetadata}
    (h : upload st f n d s3ok now = (st', .ok m)) :
    m.name = pyStrip (pyOrElse n (path_stem f)) ∧ m.size_bytes = d.length ∧
    m.last_updated_at = now ∧ d ≠ [] ∧
    ∃ r key,
      r ∈ st'.db.images ∧ r.name = m.name ∧ r.size_bytes = d.length ∧
      r.extension = m.extension ∧ r.s3_key = key ∧ r.last_updated = now ∧
      generate_s3_key m.name m.extension = .ok key ∧
      st'.blobs = put_blob st.blobs key d ∧
      ∀ x ∈ st'.db.images, x.name = m.name ∨ x.name ∈ st.db.images.map ImageRec.name := by
  simp only [upload] at h
  split at h
  · exact absurd ((Prod.mk.injEq .. ▸ h).2) (by simp)
  · split at h
    · exact absurd ((Prod.mk.injEq .. ▸ h).2) (by simp)
    · split at h
      · exact absurd ((Prod.mk.injEq .. ▸ h).2) (by simp)
      · rename_i extension hext hne key hkey
        split at h
        · exact absurd ((Prod.mk.injEq .. ▸ h).2) (by simp)
        · rename_i hd
          split at h
          · split at h
            · exact absurd ((Prod.mk.injEq .. ▸ h).2) (by simp)
            · rename_i images nid r heq
              obtain ⟨h1, h2⟩ := Prod.mk.injEq .. ▸ h
              have hm := Except.ok.inj h2
              obtain ⟨hmem, hrn, hrs, hre, hrk, hrt, hnames⟩ := upsert_ok heq
              subst h1
              have hmname : m.name = r.name := by rw [← hm, metaOf]
              have hmext : m.extension = r.extension := by rw [← hm, metaOf]
              have hmsize : m.size_bytes = r.size_bytes := by rw [← hm, metaOf]
              have hmtime : m.last_updated_at = r.last_updated := by rw [← hm, metaOf]
              refine ⟨by rw [hmname, hrn], by rw [hmsize, hrs], by rw [hmtime, hrt],
                by intro hcontra; rw [hcontra] at hd; exact hd rfl, r, key,
                hmem, hmname.symm, hrs, hmext.symm, hrk, hrt, ?_, rfl, ?_⟩
              · rw [hmname, hmext, hrn, hre]
                exact hkey
              · intro x hx
                rcases hnames x hx with hx1 | hx2
                · left; rw [hmname, hrn]; exact hx1
                · right; exact hx2
          · exact absurd ((Prod.mk.injEq .. ▸ h).2) (by simp)

/-- C1 (counterexample): `storage_key` is NOT unique across records.  The
reachable state produced by uploading name `"cat"` and then name `"c at"`
(both `.png`) holds two distinct records with the same `s3_key`
`images/cat.png`, because sanitization collapses the two names. -/
theorem C1_counterexample :
    ∃ st : SysState, Reach st ∧ ∃ r1 ∈ st.db.images, ∃ r2 ∈ st.db.images,
      r1 ≠ r2 ∧ r1.s3_key = r2.s3_key := by
  refine ⟨⟨⟨[⟨1, pyStr "cat", 1, pyStr "png", pyStr "images/cat.png", 1⟩,
      ⟨2, pyStr "c at", 1, pyStr "png", pyStr "images/cat.png", 2⟩], 3⟩,
      [(pyStr "images/cat.png", [89])]⟩, ?_, ?_⟩
  · refine Reach.upload
      ⟨⟨[⟨1, pyStr "cat", 1, pyStr "png", pyStr "images/cat.png", 1⟩], 2⟩,
        [(pyStr "images/cat.png", [88])]⟩ _
      (pyStr "cat.png") (some (pyStr "c at")) [89] true 2
      (.ok ⟨2, pyStr "c at", 1, pyStr "png"⟩) ?_ (by rfl)
    exact Reach.upload initState _ (pyStr "cat.png") (some (pyStr "cat")) [88] true 1
      (.ok ⟨1, pyStr "cat", 1, pyStr "png"⟩) Reach.init (by rfl)
  · exact ⟨⟨1, pyStr "cat", 1, pyStr "png", pyStr "images/cat.png", 1⟩,
      List.mem_cons_self _ _,
      ⟨2, pyStr "c at", 1, pyStr "png", pyStr "images/cat.png", 2⟩,
      List.mem_cons_of_mem _ (List.mem_cons_self _ _),
      by decide, rfl⟩

/-- C1 (amended): in every reachable state, every record's `storage_key` has
the form `images/<sanitized-name>.<normalized-extension>` derived from that
record's own fields, and `name` (not `storage_key`) is unique across
records. -/
theorem C1_storage_key_form (st : SysState) (h : Reach st) :
    (∀ r ∈ st.db.images, ∃ s e, sanitize_image_name r.name = .ok s ∧
        normalize_extension r.extension = .ok e ∧
        r.s3_key = pyStr "images/" ++ s ++ [46] ++ e) ∧
    (st.db.images.map ImageRec.name).Nodup := by
  obtain ⟨hK, hN, _, _⟩ := reach_inv h
  refine ⟨?_, hN⟩
  intro r hr
  have hkey := hK r hr
  simp only [generate_s3_key, bind, Except.bind] at hkey
  cases hs : sanitize_image_name r.name with
  | error e => rw [hs] at hkey; cases hkey
  | ok s =>
      rw [hs] at hkey
      cases he : normalize_extension r.extension with
      | error e => rw [he] at hkey; cases hkey
      | ok e =>
          rw [he] at hkey
          simp only [pure, Except.pure] at hkey
          exact ⟨s, e, rfl, rfl, (Except.ok.inj hkey).symm⟩

/-- C1 witness: the amended invariant instantiated at the reachable state
holding one uploaded image. -/
theorem C1_storage_key_form_witness :
    (∀ r ∈ (⟨⟨[⟨1, pyStr "hello", 1, pyStr "png", pyStr "images/hello.png", 0⟩], 2⟩,
        [(pyStr "images/hello.png", [80])]⟩ : SysState).db.images,
      ∃ s e, sanitize_image_name r.name = .ok s ∧
        normalize_extension r.extension = .ok e ∧
        r.s3_key = pyStr "images/" ++ s ++ [46] ++ e) ∧
    ((⟨⟨[⟨1, pyStr "hello", 1, pyStr "png", pyStr "images/hello.png", 0⟩], 2⟩,
        [(pyStr "images/hello.png", [80])]⟩ : SysState).db.images.map
      ImageRec.name).Nodup :=
  C1_storage_key_form _
    (Reach.upload initState _ (pyStr "hello.png") (some (pyStr "hello")) [80] true 0
      (.ok ⟨0, pyStr "hello", 1, pyStr "png"⟩) Reach.init (by rfl))

/-- C2 (counterexample): `generate_s3_key` disagrees with the spec's reference
definition (single leading dot stripped) on the extension `"..png"`: the code
yields `images/cat.png`, the reference `images/cat..png`. -/
theorem C2_counterexample :
    generate_s3_key (pyStr "cat") (pyStr "..png")
        ≠ derive_key_spec (pyStr "cat") (pyStr "..png") ∧
    generate_s3_key (pyStr "cat") (pyStr "..png") = .ok (pyStr "images/cat.png") ∧
    derive_key_spec (pyStr "cat") (pyStr "..png") = .ok (pyStr "images/cat..png") :=
  ⟨by decide, rfl, rfl⟩

/-- C2 (amended): `generate_s3_key` equals the spec's reference definition
once that definition strips ALL leading dots from the extension (that is the
behaviour of `str.lstrip(".")`); name sanitization, the error cases and the
`images/<name>.<ext>` assembly agree exactly, and as a pure function the key
derivation is deterministic. -/
theorem C2_key_derivation (name extension : List Nat) :
    generate_s3_key name extension = derive_key_spec_amended name extension :=
  generate_eq_spec_amended name extension

/-- C3 (counterexample): an upload whose payload is empty AND whose filename
has no extension fails with the extension error, not `EmptyPayload` — the
payload check runs after extension, name and key validation. -/
theorem C3_counterexample :
    (upload initState (pyStr "file") (some (pyStr "cat")) [] true 0).2
        = .error .invalidExtension ∧
    (upload initState (pyStr "file") (some (pyStr "cat")) [] true 0).2
        ≠ .error .emptyPayload :=
  ⟨rfl, by decide⟩

/-- C3 (amended): an Upload with an empty payload fails with `EmptyPayload`
and leaves the state untouched, PROVIDED extension normalization, the name
requirement and key derivation all pass first; payload validation follows key
derivation rather than preceding it. -/
theorem C3_empty_payload (st : SysState) (filename : List Nat)
    (nameOpt : Option (List Nat)) (s3ok : Bool) (now : Nat) (extension key : List Nat)
    (hext : normalize_extension (path_suffix filename) = .ok extension)
    (hname : pyStrip (pyOrElse nameOpt (path_stem filename)) ≠ [])
    (hkey : generate_s3_key (pyStrip (pyOrElse nameOpt (path_stem filename))) extension
        = .ok key) :
    upload st filename nameOpt [] s3ok now = (st, .error .emptyPayload) := by
  simp only [upload, hext, if_neg hname, hkey, List.length_nil, if_pos rfl]
  simp

/-- C3 witness: the amended statement at a concrete input. -/
theorem C3_empty_payload_witness :
    upload initState (pyStr "hello.png") (some (pyStr "hello")) [] true 0
      = (initState, .error .emptyPayload) :=
  C3_empty_payload initState (pyStr "hello.png") (some (pyStr "hello")) true 0
    (pyStr "png") (pyStr "images/hello.png") rfl (by decide) rfl

/-- C4: when the object-store write fails (`s3ok = false`) after all
validations pass, Upload fails with `StorageWriteFailed` and the whole state —
in particular the record store — is exactly the pre-call state. -/
theorem C4_storage_write_failed (st : SysState) (filename : List Nat)
    (nameOpt : Option (List Nat)) (data : List Nat) (now : Nat) (extension key : List Nat)
    (hext : normalize_extension (path_suffix filename) = .ok extension)
    (hname : pyStrip (pyOrElse nameOpt (path_stem filename)) ≠ [])
    (hkey : generate_s3_key (pyStrip (pyOrElse nameOpt (path_stem filename))) extension
        = .ok key)
    (hdata : data ≠ []) :
    upload st filename nameOpt data false now = (st, .error .storageWriteFailed) := by
  have hlen : ¬ data.length = 0 := fun hc => hdata (List.length_eq_zero.mp hc)
  simp only [upload, hext, if_neg hname, hkey, if_neg hlen, Bool.false_eq_true, if_false]

/-- C4 witness: the statement at a concrete input. -/
theorem C4_storage_write_failed_witness :
    upload initState (pyStr "hello.png") (some (pyStr "hello")) [80] false 0
      = (initState, .error .storageWriteFailed) :=
  C4_storage_write_failed initState (pyStr "hello.png") (some (pyStr "hello")) [80] 0
    (pyStr "png") (pyStr "images/hello.png") rfl (by decide) rfl (by decide)

/-- C5: after a successful Upload of a name with payload X and a successful
re-Upload of the same name with payload Y (from any reachable starting state),
exactly one record with that name exists, its `size_bytes` is `len(Y)`, and
Download of that name returns Y. -/
theorem C5_reupload (st0 st1 st2 : SysState) (f1 f2 : List Nat)
    (n1 n2 : Option (List Nat)) (dX dY : List Nat) (ok1 ok2 : Bool)
    (t1 t2 : Nat) (m1 m2 : ImageMetadata)
    (hReach : Reach st0)
    (h1 : upload st0 f1 n1 dX ok1 t1 = (st1, .ok m1))
    (h2 : upload st1 f2 n2 dY ok2 t2 = (st2, .ok m2))
    (hname : m2.name = m1.name) :
    (∃ r, st2.db.images.filter (fun x => x.name == m1.name) = [r] ∧
      r.size_bytes = dY.length) ∧
    download_by_name st2 m1.name = .ok dY := by
  have hInv2 : Inv st2 := upload_inv (upload_inv (reach_inv hReach) h1) h2
  obtain ⟨-, -, -, -, r, key, hmem, hrn, hrs, hre, hrk, -, hgen, hblobs, -⟩ :=
    upload_ok_state h2
  have hnd : (st2.db.images.map ImageRec.name).Nodup := hInv2.2.1
  have hfilter := filter_name_of_mem hnd hmem
  rw [hrn, hname] at hfilter
  have hfind := find_by_name_of_mem hnd hmem
  rw [hrn, hname] at hfind
  refine ⟨⟨r, hfilter, hrs⟩, ?_⟩
  simp only [download_by_name, hfind, hrk, hblobs, lookup_put]

/-- C5 witness: re-uploading `"cat"` with `[88]` then `[89, 90]` makes
Download return `[89, 90]`. -/
theorem C5_reupload_witness :
    download_by_name ⟨⟨[⟨1, pyStr "cat", 2, pyStr "png", pyStr "images/cat.png", 2⟩], 2⟩,
        [(pyStr "images/cat.png", [89, 90])]⟩ (pyStr "cat") = .ok [89, 90] :=
  (C5_reupload initState
    ⟨⟨[⟨1, pyStr "cat", 1, pyStr "png", pyStr "images/cat.png", 1⟩], 2⟩,
      [(pyStr "images/cat.png", [88])]⟩
    ⟨⟨[⟨1, pyStr "cat", 2, pyStr "png", pyStr "images/cat.png", 2⟩], 2⟩,
      [(pyStr "images/cat.png", [89, 90])]⟩
    (pyStr "cat.png") (pyStr "cat.png") (some (pyStr "cat")) (some (pyStr "cat"))
    [88] [89, 90] true true 1 2
    ⟨1, pyStr "cat", 1, pyStr "png"⟩ ⟨2, pyStr "cat", 2, pyStr "png"⟩
    Reach.init (by rfl) (by rfl) rfl).2

/-- C6: GetRandomMetadata fails with `NotFound` on an empty store; on a
one-record store every offset below the count returns that record; in general
any offset below the count returns the record at that offset under the fixed
`ORDER BY id` ordering, which is a record of the store. -/
theorem C6_random_metadata :
    (∀ st : SysState, st.db.images = [] →
      ∀ off, get_random_metadata st off = .error .notFound) ∧
    (∀ (st : SysState) (r0 : ImageRec), st.db.images = [r0] →
      ∀ off, off < 1 → get_random_metadata st off = .ok (metaOf r0)) ∧
    (∀ (st : SysState) (off : Nat), off < st.db.images.length →
      ∃ r, (order_by_id st.db.images).get? off = some r ∧ r ∈ st.db.images ∧
        get_random_metadata st off = .ok (metaOf r)) := by
  refine ⟨?_, ?_, ?_⟩
  · intro st h off
    simp [get_random_metadata, h]
  · intro st r0 h off hoff
    have hoff0 : off = 0 := Nat.lt_one_iff.mp hoff
    subst hoff0
    have hperm := List.mergeSort_perm st.db.images (fun a b => a.id ≤ b.id)
    rw [h] at hperm
    have hone : order_by_id [r0] = [r0] := List.perm_singleton.mp hperm
    simp [get_random_metadata, h, hone]
  · intro st off hoff
    have hoff' : off < (order_by_id st.db.images).length := by
      rw [order_by_id, List.length_mergeSort]
      exact hoff
    refine ⟨(order_by_id st.db.images).get ⟨off, hoff'⟩, List.get?_eq_get hoff', ?_, ?_⟩
    · have hm := List.get_mem (order_by_id st.db.images) off hoff'
      simp only [order_by_id] at hm
      exact List.mem_mergeSort.mp hm
    · have hlen : ¬ st.db.images.length = 0 := by omega
      simp only [get_random_metadata, if_neg hlen, List.get?_eq_get hoff']

/-- C6 witness: instantiated at a one-record store with offset 0. -/
theorem C6_random_metadata_witness :
    get_random_metadata
      ⟨⟨[⟨1, pyStr "hello", 1, pyStr "png", pyStr "images/hello.png", 0⟩], 2⟩, []⟩ 0
      = .ok (metaOf ⟨1, pyStr "hello", 1, pyStr "png", pyStr "images/hello.png", 0⟩) :=
  C6_random_metadata.2.1 _ _ rfl 0 (by decide)

/-- C7: an insert that hits the uniqueness constraint on `name` (the
select-time table `sel` had no such name, the commit-time table `com` does —
the race of two concurrent first-time uploads) fails with `NameConflict`,
and the committed table, in particular the already-committed record with that
name, is returned untouched. -/
theorem C7_name_conflict (sel com : List ImageRec) (next_id : Nat)
    (fn ext key : List Nat) (size now : Nat)
    (hsel : find_by_name sel fn = none)
    (hcom : ∃ r ∈ com, r.name = fn) :
    upsert_record sel com next_id fn ext key size now
      = ((com, next_id), .error .nameConflict) := by
  have hany : com.any (fun r => r.name == fn) = true := by
    rw [List.any_eq_true]
    obtain ⟨r, hr, hrn⟩ := hcom
    exact ⟨r, hr, by simpa using hrn⟩
  simp only [upsert_record, hsel, hany, if_true]

/-- C7 witness: a concrete conflicting insert. -/
theorem C7_name_conflict_witness :
    upsert_record [] [⟨1, pyStr "cat", 1, pyStr "png", pyStr "images/cat.png", 1⟩] 2
        (pyStr "cat") (pyStr "png") (pyStr "images/cat.png") 1 2
      = (([⟨1, pyStr "cat", 1, pyStr "png", pyStr "images/cat.png", 1⟩], 2),
          .error .nameConflict) :=
  C7_name_conflict [] [⟨1, pyStr "cat", 1, pyStr "png", pyStr "images/cat.png", 1⟩] 2
    (pyStr "cat") (pyStr "png") (pyStr "images/cat.png") 1 2 rfl
    ⟨⟨1, pyStr "cat", 1, pyStr "png", pyStr "images/cat.png", 1⟩,
      List.mem_cons_self _ _, rfl⟩

/-- C8: Delete of an existing name issues the blob deletion before the record
deletion; when the blob deletion fails, Delete fails with
`StorageDeleteFailed` and the whole state — in particular the record — is
exactly the pre-call state. -/
theorem C8_delete_blob_first (st : SysState) (name : List Nat) (r : ImageRec)
    (hfind : find_by_name st.db.images name = some r) :
    delete_by_name st name false = (st, .error .storageDeleteFailed) := by
  simp only [delete_by_name, hfind, Bool.false_eq_true, if_false]

/-- C8 witness: a concrete failing delete. -/
theorem C8_delete_blob_first_witness :
    delete_by_name
      ⟨⟨[⟨1, pyStr "hello", 1, pyStr "png", pyStr "images/hello.png", 0⟩], 2⟩,
        [(pyStr "images/hello.png", [80])]⟩ (pyStr "hello") false
      = (⟨⟨[⟨1, pyStr "hello", 1, pyStr "png", pyStr "images/hello.png", 0⟩], 2⟩,
          [(pyStr "images/hello.png", [80])]⟩, .error .storageDeleteFailed) :=
  C8_delete_blob_first _ (pyStr "hello")
    ⟨1, pyStr "hello", 1, pyStr "png", pyStr "images/hello.png", 0⟩ (by rfl)

theorem sanitize_err {n : List Nat} {x : Err}
    (h : sanitize_image_name n = .error x) : x = .invalidName := by
  simp only [sanitize_image_name] at h
  split at h
  · exact (Except.error.inj h).symm
  · split at h
    · exact (Except.error.inj h).symm
    · cases h

theorem normalize_err {e : List Nat} {x : Err}
    (h : normalize_extension e = .error x) : x = .invalidExtension := by
  simp only [normalize_extension] at h
  split at h
  · exact (Except.error.inj h).symm
  · cases h

theorem generate_err {n e : List Nat} {x : Err}
    (h : generate_s3_key n e = .error x) :
    x = .invalidName ∨ x = .invalidExtension := by
  simp only [generate_s3_key, bind, Except.bind] at h
  cases hs : sanitize_image_name n with
  | error a =>
      rw [hs] at h
      exact Or.inl ((Except.error.inj h) ▸ sanitize_err hs)
  | ok s =>
      rw [hs] at h
      cases he : normalize_extension e with
      | error a =>
          rw [he] at h
          exact Or.inr ((Except.error.inj h) ▸ normalize_err he)
      | ok v =>
          rw [he] at h
          cases h

theorem upsert_err {sel com : List ImageRec} {n : Nat} {fn ext key : List Nat}
    {size now : Nat} {i : List ImageRec} {ni : Nat} {x : Err}
    (h : upsert_record sel com n fn ext key size now = ((i, ni), .error x)) :
    x = .nameConflict := by
  simp only [upsert_record] at h
  split at h
  · cases (Prod.mk.injEq .. ▸ h).2
  · split at h
    · exact (Except.error.inj (Prod.mk.injEq .. ▸ h).2).symm
    · cases (Prod.mk.injEq .. ▸ h).2

/-- C9 (counterexample): with a whitespace-only `name` form field and filename
`photo.png` (whose stem `photo` is non-empty after trimming), Upload fails
with the name-required validation error — the truthiness fallback
`(name or stem)` picks the whitespace name before stripping, so the claim
"fails only when both are empty after trimming" is false. -/
theorem C9_counterexample :
    pyStrip (path_stem (pyStr "photo.png")) ≠ [] ∧
    (upload initState (pyStr "photo.png") (some (pyStr " ")) [80] true 0).2
      = .error .nameRequired :=
  ⟨by decide, rfl⟩

/-- C9 (amended): when the `name` form field is omitted (or empty), the
display name defaults to the filename's stem; and — given a filename whose
suffix normalizes — Upload fails with the name-required error exactly when
the Python truthiness fallback `(name or stem)` is empty after stripping.
A whitespace-only name field therefore fails even when the stem is
non-empty, because the fallback happens before trimming. -/
theorem C9_name_fallback (st : SysState) (filename : List Nat)
    (nameOpt : Option (List Nat)) (data : List Nat) (s3ok : Bool) (now : Nat) :
    upload st filename none data s3ok now
        = upload st filename (some (path_stem filename)) data s3ok now ∧
    (∀ extension, normalize_extension (path_suffix filename) = .ok extension →
      ((upload st filename nameOpt data s3ok now).2 = .error .nameRequired ↔
        pyStrip (pyOrElse nameOpt (path_stem filename)) = [])) := by
  constructor
  · have hor : pyOrElse none (path_stem filename)
        = pyOrElse (some (path_stem filename)) (path_stem filename) := by
      simp only [pyOrElse]
      split
      · rename_i hc
        rw [hc]
      · rfl
    simp only [upload, hor]
  · intro extension hext
    simp only [upload, hext]
    by_cases hname : pyStrip (pyOrElse nameOpt (path_stem filename)) = []
    · rw [if_pos hname]
      simp [hname]
    · rw [if_neg hname]
      refine iff_of_false ?_ hname
      intro hc
      revert hc
      split
      · rename_i e hgen
        intro hc
        have he : e = Err.nameRequired := Except.error.inj hc
        rcases generate_err hgen with h1 | h1 <;> (rw [he] at h1; cases h1)
      · split
        · intro hc
          cases Except.error.inj hc
        · split
          · split
            · rename_i images nid e heq
              intro hc
              have he : e = Err.nameRequired := Except.error.inj hc
              have := upsert_err heq
              rw [he] at this
              cases this
            · intro hc
              cases hc
          · intro hc
            cases Except.error.inj hc

/-- C9 witness: the amended equivalence at a concrete whitespace-only name. -/
theorem C9_name_fallback_witness :
    (upload initState (pyStr "hello.png") (some (pyStr " ")) [80] true 0).2
        = .error .nameRequired ↔
      pyStrip (pyOrElse (some (pyStr " ")) (path_stem (pyStr "hello.png"))) = [] :=
  (C9_name_fallback initState (pyStr "hello.png") (some (pyStr " ")) [80] true 0).2
    (pyStr "png") rfl

/-- C10: a successful Upload stores the raw (stripped, unsanitized) display
name on the record while the storage key is built from the sanitized name;
hence when the sanitized name differs from the stored name (and no other
record holds the sanitized name), GetMetadata and Download succeed for the
raw name and fail with `NotFound` for the sanitized name. -/
theorem C10_raw_name (st0 st1 : SysState) (f : List Nat) (nOpt : Option (List Nat))
    (d : List Nat) (ok : Bool) (t : Nat) (m : ImageMetadata) (s : List Nat)
    (hReach : Reach st0)
    (h : upload st0 f nOpt d ok t = (st1, .ok m))
    (hsan : sanitize_image_name m.name = .ok s)
    (hdiff : s ≠ m.name)
    (hfresh : ∀ x ∈ st0.db.images, x.name ≠ s) :
    m.name = pyStrip (pyOrElse nOpt (path_stem f)) ∧
    (∃ r ∈ st1.db.images, r.name = m.name ∧
      ∃ e, normalize_extension m.extension = .ok e ∧
        r.s3_key = pyStr "images/" ++ s ++ [46] ++ e) ∧
    get_metadata st1 m.name = .ok m ∧
    download_by_name st1 m.name = .ok d ∧
    get_metadata st1 s = .error .notFound ∧
    download_by_name st1 s = .error .notFound := by
  obtain ⟨hmn, hms, hmt, hd, r, key, hmem, hrn, hrs, hre, hrk, hrt, hgen, hblobs, hnames⟩ :=
    upload_ok_state h
  have hInv1 : Inv st1 := upload_inv (reach_inv hReach) h
  have hnd := hInv1.2.1
  have hfind := find_by_name_of_mem hnd hmem
  rw [hrn] at hfind
  have hmeta : metaOf r = m := by
    simp only [metaOf]
    rw [hrn, hre, hrt, ← hmt]
    rw [hrs, ← hms]
  have hnone : find_by_name st1.db.images s = none := by
    rw [find_by_name, List.find?_eq_none]
    intro x hx
    simp only [beq_iff_eq]
    rcases hnames x hx with h1 | h1
    · rw [h1]
      exact fun hc => hdiff hc.symm
    · obtain ⟨y, hy, hyx⟩ := List.mem_map.mp h1
      rw [← hyx]
      exact hfresh y hy
  refine ⟨hmn, ⟨r, hmem, hrn, ?_⟩, ?_, ?_, ?_, ?_⟩
  · simp only [generate_s3_key, bind, Except.bind, hsan] at hgen
    cases he : normalize_extension m.extension with
    | error e => rw [he] at hgen; cases hgen
    | ok e =>
        rw [he] at hgen
        simp only [pure, Except.pure] at hgen
        exact ⟨e, rfl, by rw [hrk]; exact (Except.ok.inj hgen).symm⟩
  · simp only [get_metadata, hfind, hmeta]
  · simp only [download_by_name, hfind, hrk, hblobs, lookup_put]
  · simp only [get_metadata, hnone]
  · simp only [download_by_name, hnone]

/-- C10 witness: uploading display name `"c at"` stores that raw name; the
sanitized name `"cat"` is not found. -/
theorem C10_raw_name_witness :
    download_by_name
      ⟨⟨[⟨1, pyStr "c at", 1, pyStr "png", pyStr "images/cat.png", 0⟩], 2⟩,
        [(pyStr "images/cat.png", [80])]⟩ (pyStr "cat") = .error .notFound :=
  (C10_raw_name initState
    ⟨⟨[⟨1, pyStr "c at", 1, pyStr "png", pyStr "images/cat.png", 0⟩], 2⟩,
      [(pyStr "images/cat.png", [80])]⟩
    (pyStr "a.png") (some (pyStr "c at")) [80] true 0
    ⟨0, pyStr "c at", 1, pyStr "png"⟩ (pyStr "cat")
    Reach.init (by rfl) (by rfl) (by decide)
    (fun x hx => absurd hx (List.not_mem_nil x))).2.2.2.2.2

end ImageService
